import Mathlib

/-!
Verification of the structalize library (src/struct.ts): a schema-driven
binary struct layout compiler and serialization engine.

The embedding models JavaScript numbers that stay integral as `Nat`/`Int`;
the one place where the source can produce `NaN` (`alignTo(size, 0)`, via
`Math.ceil(0/0)*0`) is modelled by `Option Nat`, with `none` standing for
`NaN`.  Floating point field values (`f32`, `f64`) are modelled by their
IEEE-754 bit patterns (a `Nat` below `2^32` resp. `2^64`): storing a
JavaScript number that is exactly representable in the element type stores
exactly its bit pattern, and reading returns the number with the stored
pattern, so on representable values this is a faithful byte-level model.
Byte buffers are little-endian, matching the platform encoding the library
relies on.
-/

set_option maxHeartbeats 1000000

namespace Structalize

/-- The closed set of registered field types: the keys of the `TypedArray`
table in src/struct.ts. -/
inductive PropertyType where
  | i8
  | u8
  | u8_clamped
  | i16
  | u16
  | i32
  | u32
  | i64
  | u64
  | f32
  | f64
deriving DecidableEq, Repr

/-- BYTES_PER_ELEMENT of each registered TypedArray constructor. -/
def bytesPerElement : PropertyType → Nat
  | .i8 => 1
  | .u8 => 1
  | .u8_clamped => 1
  | .i16 => 2
  | .u16 => 2
  | .i32 => 4
  | .u32 => 4
  | .i64 => 8
  | .u64 => 8
  | .f32 => 4
  | .f64 => 8

/-- Lookup in the `TypedArray` registry by type name.  In the source an
unregistered name makes `TypedArray[type]` evaluate to `undefined`, so the
subsequent `.BYTES_PER_ELEMENT` access throws at definition time; here the
lookup returns `none` in that case. -/
def TypedArray.find (s : String) : Option PropertyType :=
  if s = "i8" then some .i8
  else if s = "u8" then some .u8
  else if s = "u8_clamped" then some .u8_clamped
  else if s = "i16" then some .i16
  else if s = "u16" then some .u16
  else if s = "i32" then some .i32
  else if s = "u32" then some .u32
  else if s = "i64" then some .i64
  else if s = "u64" then some .u64
  else if s = "f32" then some .f32
  else if s = "f64" then some .f64
  else none

/-- A member of a struct schema (`Member` in src/struct.ts).  The type is a
plain string so that names outside the registry are expressible, as they are
in JavaScript at runtime. -/
structure Member where
  type : String
  name : String
  count : Nat
deriving DecidableEq, Repr

/-- A compiled member (`TemplateMember` in src/struct.ts): `index` is an
element index into the type-homogeneous view, not a byte offset. -/
structure TemplateMember where
  type : PropertyType
  count : Nat
  index : Nat
deriving DecidableEq, Repr

/-- A compiled struct template (`StructTemplate` in src/struct.ts).
`size` is an `Option Nat` because the final `alignTo(size, alignment)`
evaluates to `NaN` when `alignment = 0` (empty schema); `none` models `NaN`.
The `schema` object is modelled as an association list in property insertion
order, with assignment to an existing key replacing the value in place, as
for JavaScript objects. -/
structure StructTemplate where
  size : Option Nat
  alignment : Nat
  schema : List (String × TemplateMember)
deriving DecidableEq, Repr

/-- The errors the engine can raise.  `unknownType` is the definition-time
throw on an unregistered field type; `insufficientSpace` and
`misalignedBuffer` are the two explicit `throw new Error(...)` sites;
`viewRange` is the `RangeError` a TypedArray constructor raises when the
start offset is not a multiple of the element width; `setRange` is the
`RangeError` `TypedArray.prototype.set` raises when the source does not fit. -/
inductive StructError where
  | unknownType (type : String)
  | insufficientSpace (need got : Nat)
  | misalignedBuffer (offset alignment : Nat)
  | viewRange
  | setRange
deriving DecidableEq, Repr

/-- The function `alignTo(size, alignment)` from src/struct.ts for a
positive alignment: `Math.ceil(size / alignment) * alignment`. -/
def alignToPos (size alignment : Nat) : Nat :=
  (size + alignment - 1) / alignment * alignment

/-- The function `alignTo(size, alignment)` from src/struct.ts in full
JavaScript number semantics: when `alignment = 0`, `Math.ceil(size / 0) * 0`
is `NaN` (either `NaN * 0` or `Infinity * 0`), modelled as `none`. -/
def alignTo (size alignment : Nat) : Option Nat :=
  if alignment = 0 then none else some (alignToPos size alignment)

/-- Assignment `obj[name] = v` on a JavaScript object modelled as an
association list: an existing key keeps its position and gets the new
value, a fresh key is appended. -/
def recordSet (l : List (String × TemplateMember)) (k : String)
    (v : TemplateMember) : List (String × TemplateMember) :=
  match l with
  | [] => [(k, v)]
  | (k', v') :: rest =>
      if k' = k then (k, v) :: rest else (k', v') :: recordSet rest k v

/-- The running state of the layout compiler loop in `struct`. -/
structure CompileState where
  size : Nat
  alignment : Nat
  schema : List (String × TemplateMember)
deriving DecidableEq, Repr

/-- The body of `struct`'s `for (const {type, name, count} of schema)` loop. -/
def structGo (st : CompileState) : List Member → Except StructError CompileState
  | [] => .ok st
  | m :: rest =>
      match TypedArray.find m.type with
      | none => .error (.unknownType m.type)
      | some t =>
          let elementSize := bytesPerElement t
          let size := alignToPos st.size elementSize
          structGo
            { size := size + elementSize * m.count
              alignment := max st.alignment elementSize
              schema := recordSet st.schema m.name
                { type := t, count := m.count, index := size / elementSize } }
            rest

/-- The function `struct(schema)` from src/struct.ts: the layout compiler
(`DefineLayout` in the specification). -/
def struct (schema : List Member) : Except StructError StructTemplate :=
  match structGo { size := 0, alignment := 0, schema := [] } schema with
  | .error e => .error e
  | .ok st =>
      .ok { size := alignTo st.size st.alignment
            alignment := st.alignment
            schema := st.schema }

/-- An `ArrayBufferLike` argument as seen through `viewBuffer`: its start
offset within the owning store (`byteOffset`, 0 for a plain `ArrayBuffer`)
and its bytes.  Each entry of `data` is one byte, below 256 whenever it was
produced by a typed-array store. -/
structure JSBuffer where
  byteOffset : Nat
  data : List Nat
deriving DecidableEq, Repr

/-- The comparison `buffer.byteLength < template.size` in JavaScript: a
comparison against `NaN` (modelled by `none`) is false. -/
def ltSize (len : Nat) (size : Option Nat) : Bool :=
  match size with
  | none => false
  | some n => len < n

/-- The alignment test in `createViews`:
`view.byteOffset % template.alignment !== 0`.  When the alignment is 0
(empty schema) the JavaScript remainder is `NaN`, which is `!== 0`, so the
test holds for every offset. -/
def jsMisaligned (byteOffset alignment : Nat) : Bool :=
  alignment = 0 || byteOffset % alignment != 0

/-- One `new TypedArray[name](view.buffer, view.byteOffset,
view.byteLength / BYTES_PER_ELEMENT)` call in `createViews`: the constructor
throws a `RangeError` when the start offset is not a multiple of the element
width; otherwise the fractional length argument is truncated by `ToIndex`,
giving an element count of `⌊byteLength / width⌋`.  The view is represented
by its type together with that element count; its element `i` denotes bytes
`[i*width, (i+1)*width)` of the buffer, which all views share. -/
def createView (buffer : JSBuffer) (t : PropertyType) :
    Except StructError (PropertyType × Nat) :=
  let w := bytesPerElement t
  if buffer.byteOffset % w ≠ 0 then .error .viewRange
  else .ok (t, buffer.data.length / w)

/-- The insertion-ordered set of distinct field types of a schema, as built
by the `Set` in `createViews`. -/
def distinctTypes (schema : List (String × TemplateMember)) : List PropertyType :=
  schema.foldl (fun acc p => if p.2.type ∈ acc then acc else acc ++ [p.2.type]) []

/-- The function `createViews(buffer, template)` from src/struct.ts: checks the buffer's
start offset against the template alignment, then builds one typed window
per distinct field type over the shared bytes. -/
def createViews (buffer : JSBuffer) (template : StructTemplate) :
    Except StructError (List (PropertyType × Nat)) :=
  if jsMisaligned buffer.byteOffset template.alignment then
    .error (.misalignedBuffer buffer.byteOffset template.alignment)
  else
    (distinctTypes template.schema).mapM (createView buffer)

/-- A field value of a struct instance: a scalar (a JavaScript number or
bigint) or a numeric sequence.  Integer values are exact; float values are
identified with their IEEE-754 bit patterns. -/
inductive Value where
  | scalar (v : Int)
  | array (vs : List Int)
deriving DecidableEq, Repr

/-- A struct instance: the template stored under the hidden `templateSym`
key, and the named field values. -/
structure StructInstance where
  template : StructTemplate
  values : List (String × Value)
deriving DecidableEq, Repr

/-- Whether a type's view interprets its stored bytes as a two's-complement
signed integer. -/
def isSigned : PropertyType → Bool
  | .i8 => true
  | .i16 => true
  | .i32 => true
  | .i64 => true
  | _ => false

/-- The conversion a store into a typed view applies to a value: integer
views truncate to the low `8*w` bits (`ToIntN` / `BigInt.asUintN`), the
clamped view clamps into `[0, 255]`, and float views store the bit pattern
of the value (the identity for values representable in the element type).
The result is the unsigned `w`-byte pattern put into memory. -/
def valToStored (t : PropertyType) (v : Int) : Nat :=
  match t with
  | .u8_clamped => if v < 0 then 0 else if 255 < v then 255 else v.toNat
  | _ => (v % (256 ^ bytesPerElement t : Nat)).toNat

/-- The value a typed view returns for a stored unsigned `w`-byte pattern:
signed views reinterpret the pattern in two's complement, all others return
it as is. -/
def storedToVal (t : PropertyType) (n : Nat) : Int :=
  if isSigned t then
    if 2 * n < 256 ^ bytesPerElement t then (n : Int)
    else (n : Int) - (256 ^ bytesPerElement t : Nat)
  else (n : Int)

/-- A value is representable in a field type when the store conversion for
that type is injective on it: in-range two's complement for the signed
types, in-range unsigned for the others (for `f32`/`f64` this means the
value is a valid bit pattern of the element type). -/
def repOk (t : PropertyType) (v : Int) : Prop :=
  if isSigned t then
    -(256 ^ bytesPerElement t : Nat) ≤ 2 * v ∧ 2 * v < (256 ^ bytesPerElement t : Nat)
  else 0 ≤ v ∧ v < (256 ^ bytesPerElement t : Nat)

instance (t : PropertyType) (v : Int) : Decidable (repOk t v) := by
  unfold repOk; infer_instance

/-- Load `w` bytes little-endian starting at byte index `base`. -/
def loadLE (data : List Nat) (base : Nat) : Nat → Nat
  | 0 => 0
  | w + 1 => data.getD base 0 + 256 * loadLE data (base + 1) w

/-- Store the `w`-byte little-endian encoding of `v` starting at byte index
`base` (the memory effect of one element store through a typed view). -/
def storeLE (data : List Nat) (base v : Nat) : Nat → List Nat
  | 0 => data
  | w + 1 => storeLE (data.set base (v % 256)) (base + 1) (v / 256) w

/-- The element-by-element memory effect of
`views[type].set(vs, index)` once the range check has passed. -/
def writeArray (data : List Nat) (t : PropertyType) (index : Nat) :
    List Int → List Nat
  | [] => data
  | v :: rest =>
      writeArray
        (storeLE data (index * bytesPerElement t) (valToStored t v)
          (bytesPerElement t))
        t (index + 1) rest

/-- Writing one field in `struct.write`'s loop.  An array-like value goes
through `views[type].set(value, index)`, which throws a `RangeError` before
copying anything when `index + value.length` exceeds the view's element
count; a scalar goes through `views[type][index] = value`, which is a
silent no-op when the index is out of range. -/
def writeField (data : List Nat) (m : TemplateMember) (v : Value) :
    Except StructError (List Nat) :=
  let w := bytesPerElement m.type
  match v with
  | .array vs =>
      if data.length / w < m.index + vs.length then .error .setRange
      else .ok (writeArray data m.type m.index vs)
  | .scalar x =>
      if m.index < data.length / w then
        .ok (storeLE data (m.index * w) (valToStored m.type x) w)
      else .ok data

/-- Lookup of `struct[name]` for the write loop: a missing key yields
`undefined`, which the scalar path would store as 0. -/
def getValue (values : List (String × Value)) (name : String) : Value :=
  (values.lookup name).getD (.scalar 0)

/-- The field loop of `struct.write`: fields are written in schema order,
and a throw aborts the loop with the writes made so far kept in the buffer. -/
def writeFields (values : List (String × Value)) :
    List (String × TemplateMember) → List Nat → Option StructError × List Nat
  | [], data => (none, data)
  | (name, m) :: rest, data =>
      match writeField data m (getValue values name) with
      | .error e => (some e, data)
      | .ok next => writeFields values rest next

/-- The function `struct.write(struct, buffer)` from src/struct.ts
(`Encode` in the specification).  Returns the error, if any, together with
the buffer state when the call returns or throws. -/
def structWrite (inst : StructInstance) (buffer : JSBuffer) :
    Option StructError × JSBuffer :=
  let template := inst.template
  if ltSize buffer.data.length template.size then
    (some (.insufficientSpace (template.size.getD 0) buffer.data.length), buffer)
  else
    match createViews buffer template with
    | .error e => (some e, buffer)
    | .ok _ =>
        let r := writeFields inst.values template.schema buffer.data
        (r.1, { buffer with data := r.2 })

/-- Reading one field in `struct.read`'s loop: a `count == 1` field reads
the scalar `views[type][index]`; otherwise
`views[type].slice(index, index + count)` yields the `count` element values
starting at `index` (the guards keep every access in bounds). -/
def readField (data : List Nat) (m : TemplateMember) : Value :=
  let w := bytesPerElement m.type
  if m.count = 1 then .scalar (storedToVal m.type (loadLE data (m.index * w) w))
  else
    .array ((List.range m.count).map fun j =>
      storedToVal m.type (loadLE data ((m.index + j) * w) w))

/-- The function `struct.read(template, buffer)` from src/struct.ts
(`Decode` in the specification). -/
def structRead (template : StructTemplate) (buffer : JSBuffer) :
    Except StructError StructInstance :=
  if ltSize buffer.data.length template.size then
    .error (.insufficientSpace (template.size.getD 0) buffer.data.length)
  else
    match createViews buffer template with
    | .error e => .error e
    | .ok _ =>
        .ok { template := template
              values := template.schema.map fun p => (p.1, readField buffer.data p.2) }

/-! ### Concrete fixtures: the Scenario A layout from the test suite -/

/-- The Scenario A schema: `[prop.i64("big"), prop.u8("smol", 3),
prop.f32("float")]`. -/
def messageSchema : List Member :=
  [⟨"i64", "big", 1⟩, ⟨"u8", "smol", 3⟩, ⟨"f32", "float", 1⟩]

/-- The compiled Scenario A layout: 16 bytes, alignment 8, element offsets
big = 0, smol = 8, float = 3. -/
def messageTemplate : StructTemplate :=
  { size := some 16
    alignment := 8
    schema :=
      [("big", ⟨.i64, 1, 0⟩), ("smol", ⟨.u8, 3, 8⟩), ("float", ⟨.f32, 1, 3⟩)] }

/-- Scenario A instance: big = 4, smol = [0, 2, 8], float = 4.5
(1083179008 is the IEEE-754 single bit pattern of 4.5). -/
def messageInstance : StructInstance :=
  { template := messageTemplate
    values :=
      [("big", .scalar 4), ("smol", .array [0, 2, 8]),
       ("float", .scalar 1083179008)] }

/-- The byte image Scenario A's encoding produces, little-endian. -/
def messageBytes : List Nat :=
  [4, 0, 0, 0, 0, 0, 0, 0, 0, 2, 8, 0, 0, 0, 144, 64]

/-- A Scenario A instance exercising the extreme 64-bit value
`-2^63`, which no 53-bit float mantissa distinguishes from its
neighbours: the exact integer representation must carry it. -/
def messageInstanceMin64 : StructInstance :=
  { template := messageTemplate
    values :=
      [("big", .scalar (-9223372036854775808)), ("smol", .array [255, 255, 255]),
       ("float", .scalar 4294967295)] }

/-! ### Byte-level lemmas about loadLE / storeLE -/

lemma getD_set_ne {α : Type} (a d : α) :
    ∀ (l : List α) (i j : Nat), i ≠ j → (l.set i a).getD j d = l.getD j d := by
  intro l
  induction l with
  | nil => intro i j _; rfl
  | cons x xs ih =>
      intro i j hij
      cases i with
      | zero =>
          cases j with
          | zero => exact absurd rfl hij
          | succ j => rfl
      | succ i =>
          cases j with
          | zero => rfl
          | succ j =>
              show (xs.set i a).getD j d = xs.getD j d
              exact ih i j (fun h => hij (by rw [h]))

lemma getD_set_self {α : Type} (a d : α) :
    ∀ (l : List α) (i : Nat), i < l.length → (l.set i a).getD i d = a := by
  intro l
  induction l with
  | nil => intro i h; cases h
  | cons x xs ih =>
      intro i h
      cases i with
      | zero => rfl
      | succ i =>
          show (xs.set i a).getD i d = a
          exact ih i (Nat.lt_of_succ_lt_succ h)

lemma storeLE_length : ∀ (w : Nat) (data : List Nat) (base v : Nat),
    (storeLE data base v w).length = data.length := by
  intro w
  induction w with
  | zero => intro data base v; rfl
  | succ w ih =>
      intro data base v
      show (storeLE (data.set base (v % 256)) (base + 1) (v / 256) w).length = _
      rw [ih, List.length_set]

lemma storeLE_getD_lt : ∀ (w : Nat) (data : List Nat) (base v i : Nat), i < base →
    (storeLE data base v w).getD i 0 = data.getD i 0 := by
  intro w
  induction w with
  | zero => intro data base v i _; rfl
  | succ w ih =>
      intro data base v i h
      show (storeLE (data.set base (v % 256)) (base + 1) (v / 256) w).getD i 0 = _
      rw [ih _ _ _ _ (Nat.lt_succ_of_lt h), getD_set_ne _ _ _ _ _ (Nat.ne_of_gt h)]

lemma storeLE_getD_ge : ∀ (w : Nat) (data : List Nat) (base v i : Nat), base + w ≤ i →
    (storeLE data base v w).getD i 0 = data.getD i 0 := by
  intro w
  induction w with
  | zero => intro data base v i _; rfl
  | succ w ih =>
      intro data base v i h
      show (storeLE (data.set base (v % 256)) (base + 1) (v / 256) w).getD i 0 = _
      rw [ih _ _ _ _ (by omega), getD_set_ne _ _ _ _ _ (by omega)]

lemma loadLE_ext : ∀ (w : Nat) (d1 d2 : List Nat) (base : Nat),
    (∀ i, base ≤ i → i < base + w → d1.getD i 0 = d2.getD i 0) →
    loadLE d1 base w = loadLE d2 base w := by
  intro w
  induction w with
  | zero => intro d1 d2 base _; rfl
  | succ w ih =>
      intro d1 d2 base h
      show d1.getD base 0 + 256 * loadLE d1 (base + 1) w
          = d2.getD base 0 + 256 * loadLE d2 (base + 1) w
      rw [h base (Nat.le_refl _) (by omega),
        ih d1 d2 (base + 1) (fun i h1 h2 => h i (by omega) (by omega))]

lemma loadLE_storeLE_self : ∀ (w : Nat) (data : List Nat) (base v : Nat),
    base + w ≤ data.length →
    loadLE (storeLE data base v w) base w = v % 256 ^ w := by
  intro w
  induction w with
  | zero => intro data base v _; simp [loadLE, storeLE, Nat.mod_one]
  | succ w ih =>
      intro data base v h
      show loadLE (storeLE (data.set base (v % 256)) (base + 1) (v / 256) w) base (w + 1) = _
      have h1 : (storeLE (data.set base (v % 256)) (base + 1) (v / 256) w).getD base 0
          = (data.set base (v % 256)).getD base 0 :=
        storeLE_getD_lt _ _ _ _ _ (Nat.lt_succ_self _)
      have h2 : (data.set base (v % 256)).getD base 0 = v % 256 :=
        getD_set_self _ _ _ _ (by omega)
      have h3 : loadLE (storeLE (data.set base (v % 256)) (base + 1) (v / 256) w) (base + 1) w
          = v / 256 % 256 ^ w := ih _ _ _ (by rw [List.length_set]; omega)
      show (storeLE (data.set base (v % 256)) (base + 1) (v / 256) w).getD base 0
          + 256 * loadLE (storeLE (data.set base (v % 256)) (base + 1) (v / 256) w) (base + 1) w = _
      rw [h1, h2, h3, pow_succ']
      exact Nat.mod_mul.symm

/-! ### Element conversion lemmas -/

lemma bytesPerElement_pos (t : PropertyType) : 0 < bytesPerElement t := by
  cases t <;> decide

lemma bytesPerElement_dvd_8 (t : PropertyType) : bytesPerElement t ∣ 8 := by
  cases t <;> decide

lemma valToStored_lt (t : PropertyType) (v : Int) :
    valToStored t v < 256 ^ bytesPerElement t := by
  cases t <;> simp only [valToStored, bytesPerElement] <;> norm_num <;>
    first
    | omega
    | (split_ifs <;> omega)

lemma stored_round (t : PropertyType) (v : Int) (h : repOk t v) :
    storedToVal t (valToStored t v) = v := by
  cases t <;>
    simp only [repOk, isSigned, bytesPerElement, valToStored, storedToVal,
      if_true, if_false] at * <;>
    norm_num at * <;>
    first
    | omega
    | (split_ifs <;> omega)

/-! ### The byte ranges fields occupy -/

/-- The first byte of a compiled field. -/
def fieldStart (m : TemplateMember) : Nat := m.index * bytesPerElement m.type

/-- One past the last byte of a compiled field. -/
def fieldEnd (m : TemplateMember) : Nat :=
  (m.index + m.count) * bytesPerElement m.type

/-- Two compiled fields occupy disjoint byte ranges. -/
def RangesDisjoint (m1 m2 : TemplateMember) : Prop :=
  fieldEnd m1 ≤ fieldStart m2 ∨ fieldEnd m2 ≤ fieldStart m1

instance (m1 m2 : TemplateMember) : Decidable (RangesDisjoint m1 m2) := by
  unfold RangesDisjoint; infer_instance

/-- A field value has the shape and range its compiled member declares:
a representable scalar for `count == 1`, a sequence of exactly `count`
representable elements otherwise. -/
def wfValue (m : TemplateMember) (v : Value) : Prop :=
  match v with
  | .scalar x => m.count = 1 ∧ repOk m.type x
  | .array vs => m.count ≠ 1 ∧ vs.length = m.count ∧ ∀ x ∈ vs, repOk m.type x

instance (m : TemplateMember) (v : Value) : Decidable (wfValue m v) := by
  cases v <;> unfold wfValue <;> infer_instance

/-- The bytes of a field's range hold the stored encoding of a value. -/
def FieldStored (data : List Nat) (m : TemplateMember) (v : Value) : Prop :=
  match v with
  | .scalar x =>
      loadLE data (fieldStart m) (bytesPerElement m.type) = valToStored m.type x
  | .array vs => ∀ j, j < vs.length →
      loadLE data ((m.index + j) * bytesPerElement m.type) (bytesPerElement m.type)
        = valToStored m.type (vs.getD j 0)

/-! ### writeArray / writeField / writeFields specifications -/

lemma writeArray_spec (t : PropertyType) : ∀ (vs : List Int) (data : List Nat) (index : Nat),
    (index + vs.length) * bytesPerElement t ≤ data.length →
    (writeArray data t index vs).length = data.length ∧
    (∀ i, i < index * bytesPerElement t ∨ (index + vs.length) * bytesPerElement t ≤ i →
      (writeArray data t index vs).getD i 0 = data.getD i 0) ∧
    (∀ j, j < vs.length →
      loadLE (writeArray data t index vs) ((index + j) * bytesPerElement t)
        (bytesPerElement t) = valToStored t (vs.getD j 0)) := by
  intro vs
  induction vs with
  | nil =>
      intro data index _
      exact ⟨rfl, fun i _ => rfl, fun j hj => absurd hj (by simp)⟩
  | cons v rest ih =>
      intro data index hb
      set w := bytesPerElement t with hw
      have hwpos : 0 < w := bytesPerElement_pos t
      simp only [List.length_cons] at hb
      set d1 := storeLE data (index * w) (valToStored t v) w with hd1
      have hlen1 : d1.length = data.length := storeLE_length _ _ _ _
      have hsucc : (index + 1) * w = index * w + w := by ring
      have hle1 : (index + 1) * w ≤ (index + (rest.length + 1)) * w :=
        Nat.mul_le_mul_right _ (by omega)
      have hbound1 : index * w + w ≤ data.length := by omega
      have hb' : ((index + 1) + rest.length) * w ≤ d1.length := by
        rw [hlen1]
        have heq : (index + 1 + rest.length) * w = (index + (rest.length + 1)) * w := by
          ring
        omega
      obtain ⟨ihlen, ihout, ihload⟩ := ih d1 (index + 1) hb'
      have hstep : writeArray data t index (v :: rest) = writeArray d1 t (index + 1) rest := rfl
      have heq1 : (index + 1 + rest.length) * w = (index + (rest.length + 1)) * w := by
        ring
      refine ⟨by rw [hstep, ihlen, hlen1], ?_, ?_⟩
      · intro i hi
        simp only [List.length_cons] at hi
        rcases hi with hi | hi
        · rw [hstep, ihout i (Or.inl (by omega))]
          exact storeLE_getD_lt _ _ _ _ _ hi
        · rw [hstep, ihout i (Or.inr (by omega))]
          exact storeLE_getD_ge _ _ _ _ _ (by omega)
      · intro j hj
        simp only [List.length_cons] at hj
        cases j with
        | zero =>
            have hload1 : loadLE d1 (index * w) w = valToStored t v % 256 ^ w :=
              loadLE_storeLE_self _ _ _ _ hbound1
            have hmod : valToStored t v % 256 ^ w = valToStored t v :=
              Nat.mod_eq_of_lt (valToStored_lt t v)
            have hpres : loadLE (writeArray d1 t (index + 1) rest) (index * w) w
                = loadLE d1 (index * w) w := by
              apply loadLE_ext
              intro i h1 h2
              exact ihout i (Or.inl (by omega))
            have h0 : (index + 0) * w = index * w := by ring
            have hget : (v :: rest).getD 0 0 = v := rfl
            rw [hstep, h0, hget, hpres, hload1, hmod]
        | succ j =>
            have h1 : (index + (j + 1)) * w = ((index + 1) + j) * w := by ring
            have h2 : (v :: rest).getD (j + 1) 0 = rest.getD j 0 := rfl
            rw [hstep, h1, h2]
            exact ihload j (by omega)

lemma FieldStored_mono (d1 d2 : List Nat) (m : TemplateMember) (v : Value)
    (hv : wfValue m v)
    (hagree : ∀ i, fieldStart m ≤ i → i < fieldEnd m → d2.getD i 0 = d1.getD i 0)
    (hst : FieldStored d1 m v) : FieldStored d2 m v := by
  have hwpos : 0 < bytesPerElement m.type := bytesPerElement_pos _
  rcases v with x | vs
  · obtain ⟨hc, _⟩ := hv
    show loadLE d2 (fieldStart m) (bytesPerElement m.type) = _
    rw [loadLE_ext _ d2 d1 _ fun i h1 h2 => hagree i h1 (by
      unfold fieldStart fieldEnd at *
      have : (m.index + m.count) * bytesPerElement m.type
          = m.index * bytesPerElement m.type + m.count * bytesPerElement m.type := by ring
      have : m.count * bytesPerElement m.type = bytesPerElement m.type := by
        rw [hc, one_mul]
      omega)]
    exact hst
  · obtain ⟨_, hlen, _⟩ := hv
    intro j hj
    rw [loadLE_ext _ d2 d1 _ fun i h1 h2 => hagree i (by
        unfold fieldStart
        have : m.index * bytesPerElement m.type ≤ (m.index + j) * bytesPerElement m.type :=
          Nat.mul_le_mul_right _ (by omega)
        omega)
      (by
        unfold fieldEnd
        have hj' : (m.index + j) * bytesPerElement m.type + bytesPerElement m.type
            = (m.index + j + 1) * bytesPerElement m.type := by ring
        have : (m.index + j + 1) * bytesPerElement m.type
            ≤ (m.index + m.count) * bytesPerElement m.type :=
          Nat.mul_le_mul_right _ (by omega)
        omega)]
    exact hst j hj

lemma writeField_spec (data : List Nat) (m : TemplateMember) (v : Value)
    (hb : fieldEnd m ≤ data.length) (hv : wfValue m v) :
    ∃ out, writeField data m v = .ok out ∧ out.length = data.length ∧
      (∀ i, i < fieldStart m ∨ fieldEnd m ≤ i → out.getD i 0 = data.getD i 0) ∧
      FieldStored out m v := by
  have hwpos : 0 < bytesPerElement m.type := bytesPerElement_pos m.type
  rcases v with x | vs
  · obtain ⟨hc, hrep⟩ := hv
    have hend : fieldEnd m = m.index * bytesPerElement m.type + bytesPerElement m.type := by
      unfold fieldEnd; rw [hc]; ring
    have hguard : m.index < data.length / bytesPerElement m.type := by
      have h1 : (m.index + 1) * bytesPerElement m.type ≤ data.length := by
        have h0 : (m.index + 1) * bytesPerElement m.type
            = m.index * bytesPerElement m.type + bytesPerElement m.type := by ring
        omega
      have h2 : m.index + 1 ≤ data.length / bytesPerElement m.type :=
        (Nat.le_div_iff_mul_le hwpos).mpr h1
      omega
    refine ⟨storeLE data (m.index * bytesPerElement m.type) (valToStored m.type x)
      (bytesPerElement m.type), ?_, ?_, ?_, ?_⟩
    · show writeField data m (.scalar x) = _
      simp only [writeField]
      rw [if_pos hguard]
    · exact storeLE_length _ _ _ _
    · intro i hi
      unfold fieldStart at hi
      rcases hi with hi | hi
      · exact storeLE_getD_lt _ _ _ _ _ hi
      · exact storeLE_getD_ge _ _ _ _ _ (by omega)
    · show loadLE _ (fieldStart m) (bytesPerElement m.type) = valToStored m.type x
      unfold fieldStart
      rw [loadLE_storeLE_self _ _ _ _ (by omega)]
      exact Nat.mod_eq_of_lt (valToStored_lt _ _)
  · obtain ⟨_, hlen, _⟩ := hv
    have hend : fieldEnd m = (m.index + vs.length) * bytesPerElement m.type := by
      unfold fieldEnd; rw [hlen]
    have hguard : ¬ data.length / bytesPerElement m.type < m.index + vs.length := by
      have h1 : (m.index + vs.length) * bytesPerElement m.type ≤ data.length := by omega
      have h2 : m.index + vs.length ≤ data.length / bytesPerElement m.type :=
        (Nat.le_div_iff_mul_le hwpos).mpr h1
      omega
    obtain ⟨h1, h2, h3⟩ := writeArray_spec m.type vs data m.index (by omega)
    refine ⟨writeArray data m.type m.index vs, ?_, h1, ?_, h3⟩
    · show writeField data m (.array vs) = _
      simp only [writeField]
      rw [if_neg hguard]
    · intro i hi
      unfold fieldStart at hi
      exact h2 i (by omega)

lemma writeField_error (data : List Nat) (m : TemplateMember) (v : Value)
    (e : StructError) (h : writeField data m v = .error e) : e = .setRange := by
  rcases v with x | vs <;> simp only [writeField] at h <;> split at h <;>
    cases h <;> rfl

lemma writeFields_error (values : List (String × Value)) :
    ∀ (l : List (String × TemplateMember)) (data d : List Nat) (e : StructError),
      writeFields values l data = (some e, d) → e = .setRange := by
  intro l
  induction l with
  | nil => intro data d e h; cases h
  | cons q rest ih =>
      intro data d e h
      obtain ⟨name, mm⟩ := q
      simp only [writeFields] at h
      rcases hf : writeField data mm (getValue values name) with e' | next <;>
        rw [hf] at h
      · cases h
        exact writeField_error _ _ _ _ hf
      · exact ih _ _ _ h

lemma writeFields_spec (values : List (String × Value)) :
    ∀ (l : List (String × TemplateMember)) (data : List Nat),
      (∀ p ∈ l, fieldEnd p.2 ≤ data.length ∧ wfValue p.2 (getValue values p.1)) →
      l.Pairwise (fun p q => RangesDisjoint p.2 q.2) →
      ∃ out, writeFields values l data = (none, out) ∧ out.length = data.length ∧
        (∀ i, (∀ p ∈ l, i < fieldStart p.2 ∨ fieldEnd p.2 ≤ i) →
          out.getD i 0 = data.getD i 0) ∧
        (∀ p ∈ l, FieldStored out p.2 (getValue values p.1)) := by
  intro l
  induction l with
  | nil =>
      intro data _ _
      exact ⟨data, rfl, rfl, fun i _ => rfl, fun p hp => absurd hp (by simp)⟩
  | cons q rest ih =>
      intro data h hpw
      obtain ⟨hqb, hqv⟩ := h q (List.mem_cons_self _ _)
      obtain ⟨d1, heq1, hlen1, hout1, hst1⟩ := writeField_spec data q.2 _ hqb hqv
      obtain ⟨hd, hpw'⟩ := List.pairwise_cons.mp hpw
      obtain ⟨out, heqr, hlenr, houtr, hstr⟩ := ih d1
        (fun p hp => ⟨hlen1 ▸ (h p (List.mem_cons_of_mem _ hp)).1,
          (h p (List.mem_cons_of_mem _ hp)).2⟩) hpw'
      have hrun : writeFields values (q :: rest) data = (none, out) := by
        obtain ⟨name, mm⟩ := q
        simp only [writeFields]
        rw [heq1]
        exact heqr
      refine ⟨out, hrun, by rw [hlenr, hlen1], ?_, ?_⟩
      · intro i hi
        rw [houtr i (fun p hp => hi p (List.mem_cons_of_mem _ hp))]
        exact hout1 i (hi q (List.mem_cons_self _ _))
      · intro p hp
        rcases List.mem_cons.mp hp with rfl | hp'
        · refine FieldStored_mono d1 out p.2 _ hqv ?_ hst1
          intro i h1 h2
          refine houtr i (fun r hr => ?_)
          rcases hd r hr with hdr | hdr
          · left
            omega
          · right
            omega
        · exact hstr p hp'

lemma readField_of_stored (data : List Nat) (m : TemplateMember) (v : Value)
    (hv : wfValue m v) (hst : FieldStored data m v) : readField data m = v := by
  rcases v with x | vs
  · obtain ⟨hc, hrep⟩ := hv
    unfold readField
    rw [if_pos hc]
    have hload : loadLE data (m.index * bytesPerElement m.type) (bytesPerElement m.type)
        = valToStored m.type x := hst
    rw [hload, stored_round _ _ hrep]
  · obtain ⟨hc, hlen, hrep⟩ := hv
    unfold readField
    rw [if_neg hc]
    congr 1
    apply List.ext_getElem
    · simp [hlen]
    · intro i h1 h2
      simp only [List.getElem_map, List.getElem_range]
      rw [hst i (by omega), stored_round _ _ (hrep _ (by
        rw [List.getD_eq_getElem vs 0 h2]
        exact List.getElem_mem h2))]
      exact List.getD_eq_getElem vs 0 h2

/-- A struct instance is well-formed when every schema field has a value of
the declared shape, in the declared range. -/
def WellFormedInstance (inst : StructInstance) : Prop :=
  ∀ p ∈ inst.template.schema,
    (inst.values.lookup p.1).isSome ∧ wfValue p.2 (getValue inst.values p.1)

instance (inst : StructInstance) : Decidable (WellFormedInstance inst) := by
  unfold WellFormedInstance; infer_instance

lemma lookup_map_fields (f : (String × TemplateMember) → Value) :
    ∀ (l : List (String × TemplateMember)), (l.map Prod.fst).Nodup →
      ∀ p ∈ l, (l.map fun q => (q.1, f q)).lookup p.1 = some (f p) := by
  intro l
  induction l with
  | nil => intro _ p hp; cases hp
  | cons q rest ih =>
      intro hnd p hp
      rcases List.mem_cons.mp hp with rfl | hp'
      · show List.lookup p.1 ((p.1, f p) :: _) = some (f p)
        simp [List.lookup]
      · have hne : p.1 ≠ q.1 := by
          intro hcontra
          have hmem : q.1 ∈ rest.map Prod.fst := by
            rw [← hcontra]
            exact List.mem_map_of_mem Prod.fst hp'
          rw [List.map_cons] at hnd
          exact (List.nodup_cons.mp hnd).1 hmem
        show List.lookup p.1 ((q.1, f q) :: _) = some (f p)
        simp only [List.lookup, beq_eq_false_iff_ne.mpr hne]
        rw [List.map_cons] at hnd
        exact ih (List.nodup_cons.mp hnd).2 p hp'

/-! ### Layout compiler invariants -/

lemma le_alignToPos (s a : Nat) (ha : 0 < a) : s ≤ alignToPos s a := by
  unfold alignToPos
  rw [Nat.mul_comm]
  have h1 : a * ((s + a - 1) / a) + (s + a - 1) % a = s + a - 1 :=
    Nat.div_add_mod _ _
  have h2 : (s + a - 1) % a < a := Nat.mod_lt _ ha
  generalize a * ((s + a - 1) / a) = t at h1
  omega

lemma alignToPos_dvd (s a : Nat) : a ∣ alignToPos s a :=
  Dvd.intro_left _ rfl

lemma alignToPos_div_mul (s a : Nat) (ha : 0 < a) :
    alignToPos s a / a * a = alignToPos s a :=
  Nat.div_mul_cancel (alignToPos_dvd s a)

lemma dvd_of_le_of_dvd_8 {a b : Nat} (ha : a ∣ 8) (hb : b ∣ 8) (hab : a ≤ b) :
    a ∣ b := by
  obtain ⟨i, hi, rfl⟩ := (Nat.dvd_prime_pow Nat.prime_two).mp
    (show a ∣ 2 ^ 3 from ha)
  obtain ⟨j, hj, rfl⟩ := (Nat.dvd_prime_pow Nat.prime_two).mp
    (show b ∣ 2 ^ 3 from hb)
  exact pow_dvd_pow 2 ((Nat.pow_le_pow_iff_right (by omega)).mp hab)

lemma recordSet_mem : ∀ (l : List (String × TemplateMember)) (k : String)
    (v : TemplateMember) (p : String × TemplateMember),
    p ∈ recordSet l k v → p ∈ l ∨ p = (k, v) := by
  intro l
  induction l with
  | nil =>
      intro k v p hp
      simp only [recordSet, List.mem_singleton] at hp
      exact Or.inr hp
  | cons q rest ih =>
      intro k v p hp
      obtain ⟨k', v'⟩ := q
      simp only [recordSet] at hp
      split at hp
      · rcases List.mem_cons.mp hp with rfl | hp'
        · exact Or.inr rfl
        · exact Or.inl (List.mem_cons_of_mem _ hp')
      · rcases List.mem_cons.mp hp with rfl | hp'
        · exact Or.inl (List.mem_cons_self _ _)
        · rcases ih k v p hp' with h | h
          · exact Or.inl (List.mem_cons_of_mem _ h)
          · exact Or.inr h

lemma recordSet_keys : ∀ (l : List (String × TemplateMember)) (k : String)
    (v : TemplateMember),
    (recordSet l k v).map Prod.fst
      = if k ∈ l.map Prod.fst then l.map Prod.fst else l.map Prod.fst ++ [k] := by
  intro l
  induction l with
  | nil => intro k v; simp [recordSet]
  | cons q rest ih =>
      intro k v
      obtain ⟨k', v'⟩ := q
      simp only [recordSet, List.map_cons]
      split
      · rename_i hkk
        subst hkk
        simp
      · rename_i hkk
        have hmemiff : (k ∈ k' :: rest.map Prod.fst) ↔ (k ∈ rest.map Prod.fst) := by
          constructor
          · intro h
            rcases List.mem_cons.mp h with h | h
            · exact absurd h.symm hkk
            · exact h
          · exact List.mem_cons_of_mem _
        rw [List.map_cons, ih k v]
        by_cases hmem : k ∈ rest.map Prod.fst
        · rw [if_pos hmem, if_pos (hmemiff.mpr hmem)]
        · rw [if_neg hmem, if_neg (fun h => hmem (hmemiff.mp h)), List.cons_append]

lemma recordSet_nodup (l : List (String × TemplateMember)) (k : String)
    (v : TemplateMember) (h : (l.map Prod.fst).Nodup) :
    ((recordSet l k v).map Prod.fst).Nodup := by
  rw [recordSet_keys]
  split
  · exact h
  · rename_i hnk
    simp [List.nodup_append, h, hnk]

lemma recordSet_pairwise (R : (String × TemplateMember) → (String × TemplateMember) → Prop) :
    ∀ (l : List (String × TemplateMember)) (k : String) (v : TemplateMember),
      l.Pairwise R → (∀ p ∈ l, R p (k, v) ∧ R (k, v) p) →
      (recordSet l k v).Pairwise R := by
  intro l
  induction l with
  | nil => intro k v _ _; simp [recordSet]
  | cons q rest ih =>
      intro k v hp hnew
      obtain ⟨hq, hrest⟩ := List.pairwise_cons.mp hp
      obtain ⟨k', v'⟩ := q
      simp only [recordSet]
      split
      · refine List.pairwise_cons.mpr ⟨?_, hrest⟩
        intro p hp'
        exact (hnew p (List.mem_cons_of_mem _ hp')).2
      · refine List.pairwise_cons.mpr ⟨?_, ?_⟩
        · intro p hp'
          rcases recordSet_mem rest k v p hp' with h | rfl
          · exact hq p h
          · exact (hnew (k', v') (List.mem_cons_self _ _)).1
        · exact ih k v hrest (fun p hpm => hnew p (List.mem_cons_of_mem _ hpm))

/-- The loop invariant of the layout compiler. -/
structure GoodState (st : CompileState) : Prop where
  bound : ∀ p ∈ st.schema, fieldEnd p.2 ≤ st.size
  alignLe : ∀ p ∈ st.schema, bytesPerElement p.2.type ≤ st.alignment
  alignDvd : st.alignment = 0 ∨ st.alignment ∣ 8
  keysNodup : (st.schema.map Prod.fst).Nodup
  disj : st.schema.Pairwise fun p q => RangesDisjoint p.2 q.2

lemma structGo_good : ∀ (l : List Member) (st out : CompileState),
    GoodState st → structGo st l = .ok out →
    GoodState out ∧ st.size ≤ out.size ∧ st.alignment ≤ out.alignment := by
  intro l
  induction l with
  | nil =>
      intro st out hg h
      cases h
      exact ⟨hg, Nat.le_refl _, Nat.le_refl _⟩
  | cons m rest ih =>
      intro st out hg h
      simp only [structGo] at h
      rcases hf : TypedArray.find m.type with _ | t <;> rw [hf] at h
      · cases h
      · have hwpos : 0 < bytesPerElement t := bytesPerElement_pos t
        have hsle : st.size ≤ alignToPos st.size (bytesPerElement t) :=
          le_alignToPos _ _ hwpos
        have hidx : alignToPos st.size (bytesPerElement t) / bytesPerElement t
            * bytesPerElement t = alignToPos st.size (bytesPerElement t) :=
          alignToPos_div_mul _ _ hwpos
        have hnewStart : fieldStart
            ⟨t, m.count, alignToPos st.size (bytesPerElement t) / bytesPerElement t⟩
            = alignToPos st.size (bytesPerElement t) := hidx
        have hnewEnd : fieldEnd
            ⟨t, m.count, alignToPos st.size (bytesPerElement t) / bytesPerElement t⟩
            = alignToPos st.size (bytesPerElement t) + bytesPerElement t * m.count := by
          unfold fieldEnd fieldStart at *
          simp only [add_mul] at *
          rw [hidx, Nat.mul_comm]
        have hgood' : GoodState
            { size := alignToPos st.size (bytesPerElement t) + bytesPerElement t * m.count
              alignment := max st.alignment (bytesPerElement t)
              schema := recordSet st.schema m.name
                ⟨t, m.count, alignToPos st.size (bytesPerElement t) / bytesPerElement t⟩ } := by
          refine ⟨?_, ?_, ?_, ?_, ?_⟩
          · intro p hp
            rcases recordSet_mem _ _ _ p hp with hmem | rfl
            · exact Nat.le_trans (hg.bound p hmem) (by dsimp only; omega)
            · dsimp only
              omega
          · intro p hp
            rcases recordSet_mem _ _ _ p hp with hmem | rfl
            · exact Nat.le_trans (hg.alignLe p hmem) (Nat.le_max_left _ _)
            · exact Nat.le_max_right _ _
          · rcases hg.alignDvd with h0 | hdvd
            · rw [h0]
              right
              rw [Nat.max_comm, Nat.max_eq_left (Nat.zero_le _)]
              exact bytesPerElement_dvd_8 t
            · right
              rcases Nat.le_total st.alignment (bytesPerElement t) with hle | hle
              · rw [Nat.max_eq_right hle]
                exact bytesPerElement_dvd_8 t
              · rw [Nat.max_eq_left hle]
                exact hdvd
          · exact recordSet_nodup _ _ _ hg.keysNodup
          · refine recordSet_pairwise _ _ _ _ hg.disj ?_
            intro p hp
            have hpend : fieldEnd p.2 ≤ st.size := hg.bound p hp
            constructor
            · left
              dsimp only
              omega
            · right
              dsimp only
              omega
        obtain ⟨hgout, hsize, halign⟩ := ih _ _ hgood' h
        refine ⟨hgout, ?_, ?_⟩
        · dsimp only at hsize
          omega
        · exact Nat.le_trans (Nat.le_max_left _ _) halign

/-- The facts about a compiled template that the serialization proofs use. -/
structure GoodTemplate (T : StructTemplate) (n : Nat) : Prop where
  size_eq : T.size = some n
  bound : ∀ p ∈ T.schema, fieldEnd p.2 ≤ n
  alignLe : ∀ p ∈ T.schema, bytesPerElement p.2.type ≤ T.alignment
  alignDvd : T.alignment ∣ 8
  keysNodup : (T.schema.map Prod.fst).Nodup
  disj : T.schema.Pairwise fun p q => RangesDisjoint p.2 q.2

lemma struct_good (schema : List Member) (T : StructTemplate)
    (hc : struct schema = .ok T) (hal : T.alignment ≠ 0) :
    ∃ n, GoodTemplate T n := by
  unfold struct at hc
  rcases hgo : structGo ⟨0, 0, []⟩ schema with e | st <;> rw [hgo] at hc
  · cases hc
  · cases hc
    obtain ⟨hg, _, _⟩ := structGo_good schema _ _
      ⟨by simp, by simp, Or.inl rfl, by simp, by simp⟩ hgo
    simp only [] at hal
    refine ⟨alignToPos st.size st.alignment, ?_, ?_, hg.alignLe, ?_,
      hg.keysNodup, hg.disj⟩
    · simp [alignTo, hal]
    · intro p hp
      exact Nat.le_trans (hg.bound p hp)
        (le_alignToPos _ _ (Nat.pos_of_ne_zero hal))
    · rcases hg.alignDvd with h0 | h
      · exact absurd h0 hal
      · exact h

/-! ### View factory lemmas -/

lemma jsMisaligned_eq_false {off al : Nat} :
    jsMisaligned off al = false ↔ al ≠ 0 ∧ off % al = 0 := by
  unfold jsMisaligned
  simp [Bool.or_eq_false_iff]

lemma jsMisaligned_eq_true {off al : Nat} (h : al = 0 ∨ off % al ≠ 0) :
    jsMisaligned off al = true := by
  unfold jsMisaligned
  rcases h with h | h <;> simp [h]

lemma mem_distinctTypes_aux :
    ∀ (l : List (String × TemplateMember)) (acc : List PropertyType)
      (t : PropertyType),
      t ∈ l.foldl (fun acc p => if p.2.type ∈ acc then acc else acc ++ [p.2.type]) acc →
      t ∈ acc ∨ ∃ p ∈ l, p.2.type = t := by
  intro l
  induction l with
  | nil => intro acc t h; exact Or.inl h
  | cons q rest ih =>
      intro acc t h
      rcases ih _ t h with hacc | ⟨p, hp, hpt⟩
      · dsimp only at hacc
        split at hacc
        · exact Or.inl hacc
        · rcases List.mem_append.mp hacc with h1 | h1
          · exact Or.inl h1
          · exact Or.inr ⟨q, List.mem_cons_self _ _, (List.mem_singleton.mp h1).symm⟩
      · exact Or.inr ⟨p, List.mem_cons_of_mem _ hp, hpt⟩

lemma mem_distinctTypes (schema : List (String × TemplateMember)) (t : PropertyType)
    (h : t ∈ distinctTypes schema) : ∃ p ∈ schema, p.2.type = t := by
  rcases mem_distinctTypes_aux schema [] t h with hacc | hex
  · cases hacc
  · exact hex

lemma mapM_ok {α β : Type} (f : α → Except StructError β) (g : α → β) :
    ∀ l : List α, (∀ x ∈ l, f x = .ok (g x)) → l.mapM f = .ok (l.map g) := by
  intro l
  induction l with
  | nil => intro _; rfl
  | cons x xs ih =>
      intro h
      rw [List.mapM_cons, h x (List.mem_cons_self _ _),
        ih (fun y hy => h y (List.mem_cons_of_mem _ hy))]
      rfl

lemma createViews_ok (T : StructTemplate) (buffer : JSBuffer) (n : Nat)
    (hg : GoodTemplate T n)
    (hal : jsMisaligned buffer.byteOffset T.alignment = false) :
    createViews buffer T
      = .ok ((distinctTypes T.schema).map fun t =>
          (t, buffer.data.length / bytesPerElement t)) := by
  obtain ⟨hal0, hmod⟩ := jsMisaligned_eq_false.mp hal
  unfold createViews
  rw [hal]
  show (distinctTypes T.schema).mapM (createView buffer) = _
  apply mapM_ok
  intro t ht
  obtain ⟨p, hp, rfl⟩ := mem_distinctTypes _ _ ht
  have hdvd : bytesPerElement p.2.type ∣ T.alignment :=
    dvd_of_le_of_dvd_8 (bytesPerElement_dvd_8 _) hg.alignDvd (hg.alignLe p hp)
  have hoff : bytesPerElement p.2.type ∣ buffer.byteOffset :=
    hdvd.trans (Nat.dvd_of_mod_eq_zero hmod)
  unfold createView
  rw [if_neg (by simp [Nat.mod_eq_zero_of_dvd hoff])]

/-! ### Top-level read / write specifications -/

lemma structRead_spec (T : StructTemplate) (n : Nat) (buffer : JSBuffer)
    (hg : GoodTemplate T n) (hlen : n ≤ buffer.data.length)
    (hal : jsMisaligned buffer.byteOffset T.alignment = false) :
    structRead T buffer
      = .ok { template := T
              values := T.schema.map fun p => (p.1, readField buffer.data p.2) } := by
  unfold structRead
  have hsz : ¬ ltSize buffer.data.length T.size = true := by
    rw [hg.size_eq]
    simp only [ltSize, decide_eq_true_eq]
    omega
  rw [if_neg hsz, createViews_ok T buffer n hg hal]

lemma structWrite_spec (T : StructTemplate) (n : Nat) (inst : StructInstance)
    (buffer : JSBuffer) (hg : GoodTemplate T n) (hT : inst.template = T)
    (hwf : WellFormedInstance inst) (hlen : n ≤ buffer.data.length)
    (hal : jsMisaligned buffer.byteOffset T.alignment = false) :
    ∃ data', structWrite inst buffer = (none, ⟨buffer.byteOffset, data'⟩) ∧
      data'.length = buffer.data.length ∧
      ∀ p ∈ T.schema, FieldStored data' p.2 (getValue inst.values p.1) := by
  obtain ⟨out, hrun, hlenr, _, hstored⟩ := writeFields_spec inst.values T.schema
    buffer.data
    (fun p hp => ⟨Nat.le_trans (hg.bound p hp) hlen, (hwf p (hT ▸ hp)).2⟩)
    hg.disj
  refine ⟨out, ?_, hlenr, hstored⟩
  unfold structWrite
  rw [hT]
  have hsz : ¬ ltSize buffer.data.length T.size = true := by
    rw [hg.size_eq]
    simp only [ltSize, decide_eq_true_eq]
    omega
  dsimp only
  rw [if_neg hsz, createViews_ok T buffer n hg hal]
  dsimp only
  rw [hrun]

/-! ### Heap-level model of struct.read

The flat model above returns field values; to express whether the sequence
a decoded `count > 1` field holds aliases the buffer, allocation must be
explicit.  This refinement models the heap of array buffers and the fact
that `TypedArray.prototype.slice` (the call `struct.read` makes) copies the
element range into a freshly allocated buffer.  The per-type constructor
`RangeError` (which `createViews_ok` shows cannot fire for a compiled
template on an aligned buffer) is not repeated here. -/

/-- A heap of array buffers; index `i` is the i-th allocated buffer. -/
structure Heap where
  bufs : List (List Nat)
deriving DecidableEq, Repr

/-- A typed-array reference into the heap: the buffer it views, its start
byte offset in that buffer, its element type and its element count. -/
structure TARef where
  buf : Nat
  byteOffset : Nat
  type : PropertyType
  length : Nat
deriving DecidableEq, Repr

/-- The call `view.slice(index, index + count)` on the type-`t` view of buffer
`bufIdx` at byte offset `viewOff`: copies the element range into a new
buffer appended to the heap and returns a reference to that new buffer
(`slice` copies; it does not alias). -/
def sliceCopy (h : Heap) (bufIdx viewOff : Nat) (t : PropertyType)
    (index count : Nat) : TARef × Heap :=
  let w := bytesPerElement t
  let src := h.bufs.getD bufIdx []
  let copied := (List.range (count * w)).map fun k =>
    src.getD (viewOff + index * w + k) 0
  (⟨h.bufs.length, 0, t, count⟩, ⟨h.bufs ++ [copied]⟩)

/-- A field value at the heap level: a scalar, or a reference to a typed
array. -/
inductive HValue where
  | scalar (v : Int)
  | arrayRef (r : TARef)
deriving DecidableEq, Repr

/-- An `ArrayBufferLike` argument at the heap level: which heap buffer it
views, at which byte offset, with which byte length. -/
structure HBuffer where
  buf : Nat
  byteOffset : Nat
  byteLength : Nat
deriving DecidableEq, Repr

/-- The field loop of `struct.read` at the heap level: a `count == 1` field
reads a scalar, every other field calls `slice`, which allocates. -/
def readHFields (bref : HBuffer) :
    List (String × TemplateMember) → Heap → List (String × HValue) × Heap
  | [], h => ([], h)
  | (name, m) :: rest, h =>
      if m.count = 1 then
        let v := storedToVal m.type
          (loadLE (h.bufs.getD bref.buf [])
            (bref.byteOffset + m.index * bytesPerElement m.type)
            (bytesPerElement m.type))
        let r := readHFields bref rest h
        ((name, .scalar v) :: r.1, r.2)
      else
        let s := sliceCopy h bref.buf bref.byteOffset m.type m.index m.count
        let r := readHFields bref rest s.2
        ((name, .arrayRef s.1) :: r.1, r.2)

/-- The function `struct.read` at the heap level. -/
def structReadH (template : StructTemplate) (bref : HBuffer) (h : Heap) :
    Except StructError (List (String × HValue) × Heap) :=
  if ltSize bref.byteLength template.size then
    .error (.insufficientSpace (template.size.getD 0) bref.byteLength)
  else if jsMisaligned bref.byteOffset template.alignment then
    .error (.misalignedBuffer bref.byteOffset template.alignment)
  else .ok (readHFields bref template.schema h)

/-- Assignment `view[i] = x` through a typed-array reference: converts and
stores into the referenced buffer, a silent no-op out of range. -/
def refSet (h : Heap) (r : TARef) (i : Nat) (x : Int) : Heap :=
  if i < r.length then
    ⟨h.bufs.set r.buf
      (storeLE (h.bufs.getD r.buf [])
        (r.byteOffset + i * bytesPerElement r.type)
        (valToStored r.type x) (bytesPerElement r.type))⟩
  else h

/-- Element read `view[i]` through a typed-array reference. -/
def refGet (h : Heap) (r : TARef) (i : Nat) : Int :=
  storedToVal r.type
    (loadLE (h.bufs.getD r.buf [])
      (r.byteOffset + i * bytesPerElement r.type) (bytesPerElement r.type))

lemma lookup_val_mem {β : Type} : ∀ (l : List (String × β)) (k : String) (v : β),
    l.lookup k = some v → ∃ q ∈ l, q.2 = v := by
  intro l
  induction l with
  | nil => intro k v h; cases h
  | cons q rest ih =>
      intro k v h
      obtain ⟨k', v'⟩ := q
      simp only [List.lookup] at h
      rcases hbeq : (k == k') with _ | _ <;> rw [hbeq] at h
      · obtain ⟨q', hq', hv⟩ := ih k v h
        exact ⟨q', List.mem_cons_of_mem _ hq', hv⟩
      · have hv : v' = v := by injection h
        subst hv
        exact ⟨(k', v'), List.mem_cons_self _ _, rfl⟩

lemma readHFields_spec (bref : HBuffer) :
    ∀ (l : List (String × TemplateMember)) (h : Heap),
      h.bufs.length ≤ (readHFields bref l h).2.bufs.length ∧
      (∀ i, i < h.bufs.length →
        (readHFields bref l h).2.bufs.getD i [] = h.bufs.getD i []) ∧
      (∀ q ∈ (readHFields bref l h).1, ∀ r, q.2 = .arrayRef r →
        h.bufs.length ≤ r.buf) := by
  intro l
  induction l with
  | nil =>
      intro h
      exact ⟨Nat.le_refl _, fun i _ => rfl, fun q hq => absurd hq (List.not_mem_nil q)⟩
  | cons q rest ih =>
      intro h
      obtain ⟨name, m⟩ := q
      by_cases hc : m.count = 1
      · have hstep : readHFields bref ((name, m) :: rest) h
            = ((name, .scalar (storedToVal m.type
                (loadLE (h.bufs.getD bref.buf [])
                  (bref.byteOffset + m.index * bytesPerElement m.type)
                  (bytesPerElement m.type)))) :: (readHFields bref rest h).1,
               (readHFields bref rest h).2) := by
          rw [readHFields, if_pos hc]
        obtain ⟨ih1, ih2, ih3⟩ := ih h
        rw [hstep]
        dsimp only
        refine ⟨ih1, ih2, ?_⟩
        intro p hp r hr
        rcases List.mem_cons.mp hp with rfl | hp'
        · cases hr
        · exact ih3 p hp' r hr
      · have hstep : readHFields bref ((name, m) :: rest) h
            = ((name, .arrayRef
                (sliceCopy h bref.buf bref.byteOffset m.type m.index m.count).1)
                :: (readHFields bref rest
                  (sliceCopy h bref.buf bref.byteOffset m.type m.index m.count).2).1,
               (readHFields bref rest
                  (sliceCopy h bref.buf bref.byteOffset m.type m.index m.count).2).2) := by
          rw [readHFields, if_neg hc]
        obtain ⟨ih1, ih2, ih3⟩ :=
          ih (sliceCopy h bref.buf bref.byteOffset m.type m.index m.count).2
        have hslen : (sliceCopy h bref.buf bref.byteOffset m.type m.index m.count).2.bufs.length
            = h.bufs.length + 1 := by
          simp [sliceCopy]
        have hspre : ∀ i, i < h.bufs.length →
            (sliceCopy h bref.buf bref.byteOffset m.type m.index m.count).2.bufs.getD i []
              = h.bufs.getD i [] := by
          intro i hi
          show (h.bufs ++ [_]).getD i [] = h.bufs.getD i []
          rw [List.getD_append _ _ _ _ hi]
        rw [hstep]
        dsimp only
        refine ⟨by omega, ?_, ?_⟩
        · intro i hi
          rw [ih2 i (by omega), hspre i hi]
        · intro p hp r hr
          rcases List.mem_cons.mp hp with rfl | hp'
          · cases hr
            show h.bufs.length ≤ h.bufs.length
            exact Nat.le_refl _
          · exact Nat.le_trans (by omega) (ih3 p hp' r hr)

/-! ### Helpers for the layout invariant claim -/

/-- The element width a member declaration resolves to (0 when the type is
not registered; compilation fails in that case anyway). -/
def memberWidth (m : Member) : Nat :=
  ((TypedArray.find m.type).map bytesPerElement).getD 0

lemma recordSet_fresh : ∀ (l : List (String × TemplateMember)) (k : String)
    (v : TemplateMember), k ∉ l.map Prod.fst → recordSet l k v = l ++ [(k, v)] := by
  intro l
  induction l with
  | nil => intro k v _; rfl
  | cons q rest ih =>
      intro k v hk
      obtain ⟨k', v'⟩ := q
      simp only [List.map_cons, List.mem_cons] at hk
      push_neg at hk
      simp only [recordSet]
      rw [ih k v hk.2]
      rw [if_neg (fun h : k' = k => hk.1 h.symm), List.cons_append]

lemma structGo_alignment : ∀ (l : List Member) (st out : CompileState),
    structGo st l = .ok out →
    out.alignment = l.foldl (fun a m => max a (memberWidth m)) st.alignment := by
  intro l
  induction l with
  | nil => intro st out h; cases h; rfl
  | cons m rest ih =>
      intro st out h
      simp only [structGo] at h
      rcases hf : TypedArray.find m.type with _ | t <;> rw [hf] at h
      · cases h
      · rw [List.foldl_cons]
        have hmw : memberWidth m = bytesPerElement t := by
          unfold memberWidth
          rw [hf]
          rfl
        rw [hmw]
        exact ih _ _ h

lemma structGo_count : ∀ (l : List Member) (st out : CompileState),
    (∀ p ∈ st.schema, 1 ≤ p.2.count) → (∀ m ∈ l, 1 ≤ m.count) →
    structGo st l = .ok out → ∀ p ∈ out.schema, 1 ≤ p.2.count := by
  intro l
  induction l with
  | nil => intro st out hst _ h; cases h; exact hst
  | cons m rest ih =>
      intro st out hst hl h
      simp only [structGo] at h
      rcases hf : TypedArray.find m.type with _ | t <;> rw [hf] at h
      · cases h
      · refine ih _ _ ?_ (fun m' hm' => hl m' (List.mem_cons_of_mem _ hm')) h
        intro p hp
        rcases recordSet_mem _ _ _ p hp with hmem | rfl
        · exact hst p hmem
        · exact hl m (List.mem_cons_self _ _)

lemma structGo_ordered : ∀ (l : List Member) (st out : CompileState),
    (∀ p ∈ st.schema, fieldEnd p.2 ≤ st.size) →
    (∀ m ∈ l, m.name ∉ st.schema.map Prod.fst) →
    (l.map Member.name).Nodup →
    (st.schema.Pairwise fun p q => fieldEnd p.2 ≤ fieldStart q.2) →
    structGo st l = .ok out →
    out.schema.Pairwise fun p q => fieldEnd p.2 ≤ fieldStart q.2 := by
  intro l
  induction l with
  | nil => intro st out _ _ _ hord h; cases h; exact hord
  | cons m rest ih =>
      intro st out hbound hfresh hnodup hord h
      simp only [structGo] at h
      rcases hf : TypedArray.find m.type with _ | t <;> rw [hf] at h
      · cases h
      · have hwpos : 0 < bytesPerElement t := bytesPerElement_pos t
        have hsle : st.size ≤ alignToPos st.size (bytesPerElement t) :=
          le_alignToPos _ _ hwpos
        have hidx : alignToPos st.size (bytesPerElement t) / bytesPerElement t
            * bytesPerElement t = alignToPos st.size (bytesPerElement t) :=
          alignToPos_div_mul _ _ hwpos
        have hset : recordSet st.schema m.name
            ⟨t, m.count, alignToPos st.size (bytesPerElement t) / bytesPerElement t⟩
            = st.schema ++ [(m.name,
              ⟨t, m.count, alignToPos st.size (bytesPerElement t) / bytesPerElement t⟩)] :=
          recordSet_fresh _ _ _ (hfresh m (List.mem_cons_self _ _))
        rw [List.map_cons] at hnodup
        obtain ⟨hnm, hnodup'⟩ := List.nodup_cons.mp hnodup
        refine ih _ _ ?_ ?_ hnodup' ?_ h
        · intro p hp
          dsimp only at hp ⊢
          rw [hset] at hp
          rcases List.mem_append.mp hp with hmem | hmem
          · exact Nat.le_trans (hbound p hmem) (by omega)
          · rw [List.mem_singleton.mp hmem]
            show fieldEnd (⟨t, m.count,
              alignToPos st.size (bytesPerElement t) / bytesPerElement t⟩ : TemplateMember)
              ≤ alignToPos st.size (bytesPerElement t) + bytesPerElement t * m.count
            unfold fieldEnd
            dsimp only
            rw [add_mul]
            have hcomm : m.count * bytesPerElement t = bytesPerElement t * m.count :=
              Nat.mul_comm _ _
            omega
        · intro m' hm'
          dsimp only
          rw [hset, List.map_append, List.mem_append]
          push_neg
          constructor
          · exact hfresh m' (List.mem_cons_of_mem _ hm')
          · intro hcontra
            simp only [List.map_cons, List.map_nil, List.mem_singleton] at hcontra
            apply hnm
            rw [← hcontra]
            exact List.mem_map_of_mem Member.name hm'
        · dsimp only
          rw [hset]
          rw [List.pairwise_append]
          refine ⟨hord, List.pairwise_singleton _ _, ?_⟩
          intro p hp p' hp'
          rw [List.mem_singleton.mp hp']
          have hpend : fieldEnd p.2 ≤ st.size := hbound p hp
          show fieldEnd p.2 ≤ fieldStart
            (⟨t, m.count, alignToPos st.size (bytesPerElement t) / bytesPerElement t⟩
              : TemplateMember)
          unfold fieldStart
          dsimp only
          omega

lemma structGo_ok_mem_find : ∀ (l : List Member) (st out : CompileState),
    structGo st l = .ok out → ∀ m ∈ l, ∃ t, TypedArray.find m.type = some t := by
  intro l
  induction l with
  | nil => intro st out _ m hm; cases hm
  | cons m rest ih =>
      intro st out h m' hm'
      simp only [structGo] at h
      rcases hf : TypedArray.find m.type with _ | t <;> rw [hf] at h
      · cases h
      · rcases List.mem_cons.mp hm' with rfl | hmem
        · exact ⟨t, hf⟩
        · exact ih _ _ h m' hmem

lemma foldl_max_le_init : ∀ (l : List Member) (a : Nat),
    a ≤ l.foldl (fun a m => max a (memberWidth m)) a := by
  intro l
  induction l with
  | nil => intro a; exact Nat.le_refl _
  | cons m rest ih =>
      intro a
      rw [List.foldl_cons]
      exact Nat.le_trans (Nat.le_max_left _ _) (ih _)

lemma foldl_max_mem : ∀ (l : List Member) (a : Nat) (m : Member), m ∈ l →
    memberWidth m ≤ l.foldl (fun a m => max a (memberWidth m)) a := by
  intro l
  induction l with
  | nil => intro a m hm; cases hm
  | cons m0 rest ih =>
      intro a m hm
      rw [List.foldl_cons]
      rcases List.mem_cons.mp hm with rfl | hm'
      · exact Nat.le_trans (Nat.le_max_right _ _) (foldl_max_le_init _ _)
      · exact ih _ m hm'

/-- The layout of `[u8 "a", u8 "b" x2]`. -/
def abTemplate : StructTemplate :=
  { size := some 3
    alignment := 1
    schema := [("a", ⟨.u8, 1, 0⟩), ("b", ⟨.u8, 2, 1⟩)] }

/-- An instance of `abTemplate` whose "b" sequence is longer than its
declared count. -/
def abOversized : StructInstance :=
  { template := abTemplate
    values := [("a", .scalar 7), ("b", .array [1, 2, 3, 4, 5])] }

/-- A schema naming the unregistered type "i128". -/
def badSchema : List Member := [⟨"i128", "x", 1⟩]

/-- The layout of `[u8 "a" x2]`, used by the aliasing counterexample. -/
def pairTemplate : StructTemplate :=
  { size := some 2
    alignment := 1
    schema := [("a", ⟨.u8, 2, 0⟩)] }

lemma structGo_unknown : ∀ (l : List Member) (st : CompileState),
    (∃ m ∈ l, TypedArray.find m.type = none) →
    ∃ s, structGo st l = .error (.unknownType s) := by
  intro l
  induction l with
  | nil =>
      intro st h
      obtain ⟨m, hm, _⟩ := h
      cases hm
  | cons m rest ih =>
      intro st h
      obtain ⟨m', hm', hfind⟩ := h
      simp only [structGo]
      rcases hf : TypedArray.find m.type with _ | t
      · exact ⟨m.type, rfl⟩
      · refine ih _ ⟨m', ?_, hfind⟩
        rcases List.mem_cons.mp hm' with rfl | hmem
        · rw [hf] at hfind
          cases hfind
        · exact hmem

/-! ### Claim theorems -/

/-- C2: `DefineLayout` on `[int64 "big", uint8 x3 "smol", float32 "float"]`
yields totalSize 16, alignment 8, element offsets big = 0, smol = 8,
float = 3 (byte offset 12); encoding big = 4, smol = [0,2,8], float = 4.5
(bit pattern 1083179008) into a 16-byte buffer and decoding it back yields
the identical triple. -/
theorem c2_scenario_a :
    struct messageSchema = .ok messageTemplate ∧
    messageTemplate.size = some 16 ∧
    messageTemplate.alignment = 8 ∧
    messageTemplate.schema.lookup "big" = some ⟨.i64, 1, 0⟩ ∧
    messageTemplate.schema.lookup "smol" = some ⟨.u8, 3, 8⟩ ∧
    messageTemplate.schema.lookup "float" = some ⟨.f32, 1, 3⟩ ∧
    3 * bytesPerElement .f32 = 12 ∧
    structWrite messageInstance ⟨0, List.replicate 16 0⟩ = (none, ⟨0, messageBytes⟩) ∧
    structRead messageTemplate ⟨0, messageBytes⟩ = .ok messageInstance :=
  ⟨rfl, rfl, rfl, rfl, rfl, rfl, rfl, rfl, rfl⟩

/-- C10: evaluating the layout compiler at the failing input: the empty
field list compiles to `totalSize = NaN` (modelled `none`), because the
final `alignTo(0, 0)` computes `Math.ceil(0/0)*0 = NaN` — not the
`totalSize = 0` the specification states. -/
theorem c10_empty_layout_size_nan :
    struct ([] : List Member) = .ok { size := none, alignment := 0, schema := [] } :=
  rfl

/-- C3 counterexample: at the empty field list the compiled totalSize is
`NaN` (`none`), not a natural number at all, so it is not a non-negative
multiple of the alignment; the claim fails as stated for every
field-specification list. -/
theorem c3_counterexample :
    struct ([] : List Member) = .ok { size := none, alignment := 0, schema := [] } ∧
    (none : Option Nat).isSome = false :=
  ⟨rfl, rfl⟩

/-- C3 (amended): for every NONEMPTY field-specification list with distinct
names and counts at least 1 that compiles, the layout satisfies: totalSize
is a (non-negative) multiple of alignment; alignment is the maximum element
width among the fields; the fields occupy non-overlapping, strictly
increasing byte ranges in declaration order; and each field's starting byte
offset is a multiple of its own element width. -/
theorem c3_layout_invariants (schema : List Member) (T : StructTemplate)
    (hc : struct schema = .ok T) (hne : schema ≠ [])
    (hnodup : (schema.map Member.name).Nodup)
    (hcnt : ∀ m ∈ schema, 1 ≤ m.count) :
    (∃ n, T.size = some n ∧ n % T.alignment = 0) ∧
    T.alignment = schema.foldl (fun a m => max a (memberWidth m)) 0 ∧
    (T.schema.Pairwise fun p q => fieldEnd p.2 ≤ fieldStart q.2) ∧
    (∀ p ∈ T.schema, fieldStart p.2 < fieldEnd p.2) ∧
    (∀ p ∈ T.schema, fieldStart p.2 % bytesPerElement p.2.type = 0) := by
  unfold struct at hc
  rcases hgo : structGo ⟨0, 0, []⟩ schema with e | st <;> rw [hgo] at hc
  · cases hc
  · cases hc
    have halign : st.alignment = schema.foldl (fun a m => max a (memberWidth m)) 0 :=
      structGo_alignment schema _ _ hgo
    obtain ⟨m0, hm0⟩ : ∃ m0, m0 ∈ schema := by
      cases schema with
      | nil => exact absurd rfl hne
      | cons x xs => exact ⟨x, List.mem_cons_self _ _⟩
    obtain ⟨t0, ht0⟩ := structGo_ok_mem_find schema _ _ hgo m0 hm0
    have hw0 : 1 ≤ memberWidth m0 := by
      unfold memberWidth
      rw [ht0]
      exact bytesPerElement_pos t0
    have hal0 : st.alignment ≠ 0 := by
      have := foldl_max_mem schema 0 m0 hm0
      omega
    refine ⟨?_, ?_, ?_, ?_, ?_⟩
    · refine ⟨alignToPos st.size st.alignment, ?_, ?_⟩
      · dsimp only
        unfold alignTo
        rw [if_neg hal0]
      · dsimp only
        exact Nat.mod_eq_zero_of_dvd (alignToPos_dvd _ _)
    · exact halign
    · dsimp only
      exact structGo_ordered schema ⟨0, 0, []⟩ st (by simp) (by simp) hnodup
        (by simp) hgo
    · intro p hp
      dsimp only at hp
      have hcnt' : 1 ≤ p.2.count :=
        structGo_count schema _ _ (by simp) hcnt hgo p hp
      have hwpos : 0 < bytesPerElement p.2.type := bytesPerElement_pos _
      unfold fieldStart fieldEnd
      exact (Nat.mul_lt_mul_right hwpos).mpr (by omega)
    · intro p hp
      unfold fieldStart
      exact Nat.mul_mod_left _ _

/-- C3 amended claim witness at Scenario A. -/
theorem c3_layout_invariants_witness :
    (messageSchema ≠ [] ∧ (messageSchema.map Member.name).Nodup ∧
      ∀ m ∈ messageSchema, 1 ≤ m.count) ∧
    ((∃ n, messageTemplate.size = some n ∧ n % messageTemplate.alignment = 0) ∧
      messageTemplate.alignment
        = messageSchema.foldl (fun a m => max a (memberWidth m)) 0 ∧
      (messageTemplate.schema.Pairwise fun p q => fieldEnd p.2 ≤ fieldStart q.2) ∧
      (∀ p ∈ messageTemplate.schema, fieldStart p.2 < fieldEnd p.2) ∧
      (∀ p ∈ messageTemplate.schema,
        fieldStart p.2 % bytesPerElement p.2.type = 0)) :=
  ⟨⟨by decide, by decide, by decide⟩,
    c3_layout_invariants messageSchema messageTemplate rfl (by decide)
      (by decide) (by decide)⟩

/-- C4: for every compiled layout with totalSize n > 0, Decode and Encode
on a buffer shorter than n fail with the InsufficientSpace error (the size
check is the first thing both operations do). -/
theorem c4_insufficient_space (schema : List Member) (T : StructTemplate)
    (n : Nat) (buffer : JSBuffer) (inst : StructInstance)
    (hc : struct schema = .ok T) (hsz : T.size = some n) (hpos : 0 < n)
    (hshort : buffer.data.length < n) (hT : inst.template = T) :
    structRead T buffer = .error (.insufficientSpace n buffer.data.length) ∧
    structWrite inst buffer
      = (some (.insufficientSpace n buffer.data.length), buffer) := by
  have hlt : ltSize buffer.data.length T.size = true := by
    rw [hsz]
    simp only [ltSize, decide_eq_true_eq]
    omega
  constructor
  · unfold structRead
    rw [if_pos hlt, hsz]
    rfl
  · unfold structWrite
    rw [hT]
    dsimp only
    rw [if_pos hlt, hsz]
    rfl

/-- C4 witness: Scenario B, the Scenario A layout with a 15-byte buffer. -/
theorem c4_insufficient_space_witness :
    (0 < 16 ∧ (List.replicate 15 (0 : Nat)).length < 16) ∧
    structRead messageTemplate ⟨0, List.replicate 15 0⟩
      = .error (.insufficientSpace 16 (List.replicate 15 (0 : Nat)).length) ∧
    structWrite messageInstance ⟨0, List.replicate 15 0⟩
      = (some (.insufficientSpace 16 (List.replicate 15 (0 : Nat)).length),
        ⟨0, List.replicate 15 0⟩) :=
  ⟨⟨by decide, by decide⟩,
    c4_insufficient_space messageSchema messageTemplate 16
      ⟨0, List.replicate 15 0⟩ messageInstance rfl rfl (by decide) (by decide) rfl⟩

/-- C6 counterexample: Encode can fail AFTER it has already written to the
buffer.  With layout `[u8 "a", u8 "b" x2]` (3 bytes) and an instance whose
"b" value is a 5-element sequence, the bulk copy for "b" throws the
RangeError of `TypedArray.prototype.set` after "a" was already stored:
the buffer changes from [0,0,0] to [7,0,0] although the call fails. -/
theorem c6_counterexample :
    struct [⟨"u8", "a", 1⟩, ⟨"u8", "b", 2⟩] = .ok abTemplate ∧
    structWrite abOversized ⟨0, [0, 0, 0]⟩ = (some .setRange, ⟨0, [7, 0, 0]⟩) ∧
    ([7, 0, 0] : List Nat) ≠ [0, 0, 0] :=
  ⟨rfl, rfl, by decide⟩

/-- C6 (amended): every Encode failure OTHER than the mid-loop RangeError
of `TypedArray.prototype.set` (an oversized sequence value) leaves the
buffer unchanged: the size and alignment validation runs before any write. -/
theorem c6_validation_before_write (inst : StructInstance)
    (buffer buffer' : JSBuffer) (e : StructError)
    (hw : structWrite inst buffer = (some e, buffer')) (hne : e ≠ .setRange) :
    buffer' = buffer := by
  unfold structWrite at hw
  dsimp only at hw
  split at hw
  · cases hw
    rfl
  · rcases hv : createViews buffer inst.template with e2 | vs <;> rw [hv] at hw
    · cases hw
      rfl
    · rcases hr : writeFields inst.values inst.template.schema buffer.data
        with ⟨err, d⟩
      rw [hr] at hw
      injection hw with h1 h2
      dsimp only at h1
      exact absurd (writeFields_error inst.values inst.template.schema
        buffer.data d e (by rw [hr, h1])) hne

/-- C6 amended claim witness: a failing Encode with InsufficientSpace
leaves the buffer unchanged. -/
theorem c6_validation_before_write_witness :
    structWrite messageInstance ⟨0, List.replicate 15 0⟩
      = (some (.insufficientSpace 16 15), ⟨0, List.replicate 15 0⟩) ∧
    StructError.insufficientSpace 16 15 ≠ .setRange ∧
    (⟨0, List.replicate 15 0⟩ : JSBuffer) = ⟨0, List.replicate 15 0⟩ :=
  ⟨rfl, by decide,
    c6_validation_before_write messageInstance ⟨0, List.replicate 15 0⟩
      ⟨0, List.replicate 15 0⟩ (.insufficientSpace 16 15) rfl (by decide)⟩

/-- C8: whenever some field references a type outside the registry,
`struct` fails with the UnknownType error at definition time — `struct`
takes no buffer, so no buffer is touched. -/
theorem c8_unknown_type (schema : List Member)
    (h : ∃ m ∈ schema, TypedArray.find m.type = none) :
    ∃ s, struct schema = .error (.unknownType s) := by
  obtain ⟨s, hs⟩ := structGo_unknown schema ⟨0, 0, []⟩ h
  refine ⟨s, ?_⟩
  unfold struct
  rw [hs]

/-- C8 witness: a schema with the unregistered type "i128". -/
theorem c8_unknown_type_witness :
    (∃ m ∈ badSchema, TypedArray.find m.type = none) ∧
    (∃ s, struct badSchema = .error (.unknownType s)) :=
  ⟨⟨⟨"i128", "x", 1⟩, by decide, rfl⟩,
    c8_unknown_type badSchema ⟨⟨"i128", "x", 1⟩, by decide, rfl⟩⟩

/-- C1: round-trip law.  For every compiled layout and every instance whose
field values are representable in their declared types (exact 64-bit
integers included, via the exact `Int` representation), encoding into an
adequately sized, aligned buffer succeeds, and decoding the resulting bytes
yields the same value for every field, for every supported type and count. -/
theorem c1_round_trip (schema : List Member) (T : StructTemplate) (n : Nat)
    (inst : StructInstance) (buffer : JSBuffer)
    (hc : struct schema = .ok T) (hsz : T.size = some n)
    (hT : inst.template = T) (hwf : WellFormedInstance inst)
    (hlen : n ≤ buffer.data.length)
    (hal : jsMisaligned buffer.byteOffset T.alignment = false) :
    ∃ buffer' inst', structWrite inst buffer = (none, buffer') ∧
      structRead T buffer' = .ok inst' ∧
      ∀ p ∈ T.schema, inst'.values.lookup p.1 = inst.values.lookup p.1 := by
  have hal0 : T.alignment ≠ 0 := (jsMisaligned_eq_false.mp hal).1
  obtain ⟨n', hg⟩ := struct_good schema T hc hal0
  rw [hg.size_eq] at hsz
  injection hsz with hnn
  subst hnn
  obtain ⟨data', hwrt, hlen', hstored⟩ :=
    structWrite_spec T n' inst buffer hg hT hwf hlen hal
  have hread := structRead_spec T n' ⟨buffer.byteOffset, data'⟩ hg
    (by show n' ≤ data'.length; omega) hal
  refine ⟨_, _, hwrt, hread, ?_⟩
  intro p hp
  obtain ⟨hsome, hwfv⟩ := hwf p (by rw [hT]; exact hp)
  obtain ⟨v, hv⟩ := Option.isSome_iff_exists.mp hsome
  have hgv : getValue inst.values p.1 = v := by
    unfold getValue
    rw [hv]
    rfl
  have hrf : readField data' p.2 = v := by
    rw [← hgv]
    exact readField_of_stored _ _ _ hwfv (hstored p hp)
  show (T.schema.map fun q => (q.1, readField data' q.2)).lookup p.1
      = inst.values.lookup p.1
  rw [lookup_map_fields _ _ hg.keysNodup p hp, hrf, hv]

/-- C1 witness at Scenario A. -/
theorem c1_round_trip_witness :
    (WellFormedInstance messageInstance ∧
      ∃ buffer' inst',
        structWrite messageInstance ⟨0, List.replicate 16 0⟩ = (none, buffer') ∧
        structRead messageTemplate buffer' = .ok inst' ∧
        ∀ p ∈ messageTemplate.schema,
          inst'.values.lookup p.1 = messageInstance.values.lookup p.1) ∧
    (WellFormedInstance messageInstanceMin64 ∧
      ∃ buffer' inst',
        structWrite messageInstanceMin64 ⟨0, List.replicate 16 0⟩ = (none, buffer') ∧
        structRead messageTemplate buffer' = .ok inst' ∧
        ∀ p ∈ messageTemplate.schema,
          inst'.values.lookup p.1 = messageInstanceMin64.values.lookup p.1) :=
  ⟨⟨by decide,
      c1_round_trip messageSchema messageTemplate 16 messageInstance
        ⟨0, List.replicate 16 0⟩ rfl rfl rfl (by decide) (by decide) (by decide)⟩,
    ⟨by decide,
      c1_round_trip messageSchema messageTemplate 16 messageInstanceMin64
        ⟨0, List.replicate 16 0⟩ rfl rfl rfl (by decide) (by decide) (by decide)⟩⟩

/-- C5 counterexample: a sub-view that is both misaligned (offset 20,
alignment 8) and too short (4 bytes for a 16-byte layout) fails with
InsufficientSpace, not MisalignedBuffer: the size check runs first, so the
claim's unconditional "always fails with MisalignedBuffer" is false. -/
theorem c5_counterexample :
    20 % messageTemplate.alignment ≠ 0 ∧
    (List.replicate 4 (0 : Nat)).length < 16 ∧
    structRead messageTemplate ⟨20, List.replicate 4 0⟩
      = .error (.insufficientSpace 16 4) ∧
    structWrite messageInstance ⟨20, List.replicate 4 0⟩
      = (some (.insufficientSpace 16 4), ⟨20, List.replicate 4 0⟩) ∧
    StructError.insufficientSpace 16 4 ≠ .misalignedBuffer 20 8 :=
  ⟨by decide, by decide, rfl, rfl, by decide⟩

/-- C5 (amended): for a compiled layout with alignment > 1 and a buffer of
sufficient length, Decode and Encode fail with MisalignedBuffer exactly
when the sub-view's start offset is not a multiple of the alignment, and
succeed when it is (Encode additionally needs a well-formed instance); a
buffer that is also shorter than totalSize fails with InsufficientSpace
instead. -/
theorem c5_alignment_check (schema : List Member) (T : StructTemplate)
    (n : Nat) (buffer : JSBuffer)
    (hc : struct schema = .ok T) (hsz : T.size = some n)
    (hal : 1 < T.alignment) (hlen : n ≤ buffer.data.length) :
    (buffer.byteOffset % T.alignment ≠ 0 →
      structRead T buffer
        = .error (.misalignedBuffer buffer.byteOffset T.alignment) ∧
      ∀ inst : StructInstance, inst.template = T →
        structWrite inst buffer
          = (some (.misalignedBuffer buffer.byteOffset T.alignment), buffer)) ∧
    (buffer.byteOffset % T.alignment = 0 →
      (∃ out, structRead T buffer = .ok out) ∧
      ∀ inst : StructInstance, inst.template = T → WellFormedInstance inst →
        ∃ buffer', structWrite inst buffer = (none, buffer')) := by
  have hsize : ¬ ltSize buffer.data.length T.size = true := by
    rw [hsz]
    simp only [ltSize, decide_eq_true_eq]
    omega
  constructor
  · intro hmod
    have hcv : createViews buffer T
        = .error (.misalignedBuffer buffer.byteOffset T.alignment) := by
      unfold createViews
      rw [if_pos (jsMisaligned_eq_true (Or.inr hmod))]
    constructor
    · unfold structRead
      rw [if_neg hsize, hcv]
    · intro inst hT
      unfold structWrite
      rw [hT]
      dsimp only
      rw [if_neg hsize, hcv]
  · intro hmod
    have hal' : jsMisaligned buffer.byteOffset T.alignment = false :=
      jsMisaligned_eq_false.mpr ⟨by omega, hmod⟩
    obtain ⟨n', hg⟩ := struct_good schema T hc (by omega)
    rw [hg.size_eq] at hsz
    injection hsz with hnn
    subst hnn
    constructor
    · exact ⟨_, structRead_spec T n' buffer hg hlen hal'⟩
    · intro inst hT hwf
      obtain ⟨data', hwrt, _, _⟩ :=
        structWrite_spec T n' inst buffer hg hT hwf hlen hal'
      exact ⟨_, hwrt⟩

/-- C5 amended claim witness: Scenario C, offsets 20 and 24. -/
theorem c5_alignment_check_witness :
    (1 < messageTemplate.alignment ∧ 20 % messageTemplate.alignment ≠ 0 ∧
      24 % messageTemplate.alignment = 0) ∧
    structRead messageTemplate ⟨20, List.replicate 16 0⟩
      = .error (.misalignedBuffer 20 8) ∧
    (∃ out, structRead messageTemplate ⟨24, List.replicate 16 0⟩ = .ok out) := by
  refine ⟨⟨by decide, by decide, by decide⟩, ?_, ?_⟩
  · exact ((c5_alignment_check messageSchema messageTemplate 16
      ⟨20, List.replicate 16 0⟩ rfl rfl (by decide) (by decide)).1 (by decide)).1
  · exact ((c5_alignment_check messageSchema messageTemplate 16
      ⟨24, List.replicate 16 0⟩ rfl rfl (by decide) (by decide)).2 (by decide)).1

/-- C7 counterexample: the sequence Decode returns for the `count = 2`
field of `[u8 "a" x2]` does NOT alias the buffer.  `struct.read` calls
`slice`, which copies the bytes into a fresh buffer: writing 9 through the
returned sequence leaves the source buffer bytes at [5, 6], and changing
the source buffer to [7, 6] still leaves the sequence reading 9 — neither
direction of the claimed aliasing holds. -/
theorem c7_counterexample :
    struct [⟨"u8", "a", 2⟩] = .ok pairTemplate ∧
    structReadH pairTemplate ⟨0, 0, 2⟩ ⟨[[5, 6]]⟩
      = .ok ([("a", .arrayRef ⟨1, 0, .u8, 2⟩)], ⟨[[5, 6], [5, 6]]⟩) ∧
    refSet ⟨[[5, 6], [5, 6]]⟩ ⟨1, 0, .u8, 2⟩ 0 9 = ⟨[[5, 6], [9, 6]]⟩ ∧
    (Heap.mk [[5, 6], [9, 6]]).bufs.getD 0 [] = [5, 6] ∧
    ([5, 6] : List Nat) ≠ [9, 6] ∧
    refGet ⟨[[7, 6], [9, 6]]⟩ ⟨1, 0, .u8, 2⟩ 0 = 9 ∧
    (9 : Int) ≠ 7 :=
  ⟨rfl, rfl, rfl, rfl, by decide, rfl, by decide⟩

/-- C7 (amended): the sequence Decode returns for a `count > 1` field is a
fresh copy of the buffer bytes, not an alias: decoding leaves every
pre-existing buffer unchanged, every returned sequence references a buffer
allocated by the decode itself, and writing through such a sequence leaves
every pre-existing buffer unchanged. -/
theorem c7_slice_copies (template : StructTemplate) (bref : HBuffer)
    (h : Heap) (res : List (String × HValue)) (h2 : Heap)
    (hrd : structReadH template bref h = .ok (res, h2)) :
    (∀ i, i < h.bufs.length → h2.bufs.getD i [] = h.bufs.getD i []) ∧
    (∀ name r, res.lookup name = some (.arrayRef r) →
      h.bufs.length ≤ r.buf ∧
      ∀ i x b, b < h.bufs.length →
        (refSet h2 r i x).bufs.getD b [] = h2.bufs.getD b []) := by
  unfold structReadH at hrd
  split at hrd
  · cases hrd
  · split at hrd
    · cases hrd
    · injection hrd with heq
      obtain ⟨hsp1, hsp2, hsp3⟩ := readHFields_spec bref template.schema h
      rw [heq] at hsp1 hsp2 hsp3
      refine ⟨hsp2, ?_⟩
      intro name r hl
      obtain ⟨q, hq, hq2⟩ := lookup_val_mem res name (.arrayRef r) hl
      have hfresh : h.bufs.length ≤ r.buf := hsp3 q hq r hq2
      refine ⟨hfresh, ?_⟩
      intro i x b hb
      unfold refSet
      split
      · show (h2.bufs.set r.buf _).getD b [] = h2.bufs.getD b []
        exact getD_set_ne _ _ _ _ _ (by omega)
      · rfl

/-- C7 amended claim witness at the `[u8 "a" x2]` layout. -/
theorem c7_slice_copies_witness :
    structReadH pairTemplate ⟨0, 0, 2⟩ ⟨[[5, 6]]⟩
      = .ok ([("a", .arrayRef ⟨1, 0, .u8, 2⟩)], ⟨[[5, 6], [5, 6]]⟩) ∧
    ((∀ i, i < (Heap.mk [[5, 6]]).bufs.length →
        (Heap.mk [[5, 6], [5, 6]]).bufs.getD i []
          = (Heap.mk [[5, 6]]).bufs.getD i []) ∧
      (∀ name r,
        ([("a", HValue.arrayRef ⟨1, 0, .u8, 2⟩)]).lookup name
          = some (.arrayRef r) →
        (Heap.mk [[5, 6]]).bufs.length ≤ r.buf ∧
        ∀ i x b, b < (Heap.mk [[5, 6]]).bufs.length →
          (refSet ⟨[[5, 6], [5, 6]]⟩ r i x).bufs.getD b []
            = (Heap.mk [[5, 6], [5, 6]]).bufs.getD b [])) :=
  ⟨rfl, c7_slice_copies pairTemplate ⟨0, 0, 2⟩ ⟨[[5, 6]]⟩ _ _ rfl⟩

/-- C9: for every buffer Decode/Encode accepts (length at least totalSize,
aligned start offset), view construction succeeds for every distinct field
type — including buffers whose byte length is not a multiple of the element
width — and each window's element count is the full remainder
`⌊byteLength / width⌋`, which covers every field's element range. -/
theorem c9_views_full_remainder (schema : List Member) (T : StructTemplate)
    (n : Nat) (buffer : JSBuffer)
    (hc : struct schema = .ok T) (hsz : T.size = some n)
    (hlen : n ≤ buffer.data.length)
    (hal : jsMisaligned buffer.byteOffset T.alignment = false) :
    ∃ views, createViews buffer T = .ok views ∧
      (∀ tv ∈ views, tv.2 = buffer.data.length / bytesPerElement tv.1 ∧
        tv.2 * bytesPerElement tv.1 ≤ buffer.data.length ∧
        buffer.data.length < (tv.2 + 1) * bytesPerElement tv.1) ∧
      (∀ p ∈ T.schema,
        p.2.index + p.2.count ≤ buffer.data.length / bytesPerElement p.2.type) := by
  have hal0 : T.alignment ≠ 0 := (jsMisaligned_eq_false.mp hal).1
  obtain ⟨n', hg⟩ := struct_good schema T hc hal0
  rw [hg.size_eq] at hsz
  injection hsz with hnn
  subst hnn
  refine ⟨_, createViews_ok T buffer n' hg hal, ?_, ?_⟩
  · intro tv htv
    obtain ⟨t, ht, rfl⟩ := List.mem_map.mp htv
    have hwpos : 0 < bytesPerElement t := bytesPerElement_pos t
    refine ⟨rfl, Nat.div_mul_le_self _ _, ?_⟩
    show buffer.data.length
        < (buffer.data.length / bytesPerElement t + 1) * bytesPerElement t
    rw [add_mul, one_mul]
    have hdm := Nat.div_add_mod buffer.data.length (bytesPerElement t)
    have hmlt : buffer.data.length % bytesPerElement t < bytesPerElement t :=
      Nat.mod_lt _ hwpos
    have hcomm : bytesPerElement t * (buffer.data.length / bytesPerElement t)
        = buffer.data.length / bytesPerElement t * bytesPerElement t :=
      Nat.mul_comm _ _
    omega
  · intro p hp
    have hwpos : 0 < bytesPerElement p.2.type := bytesPerElement_pos _
    have hfe : fieldEnd p.2 ≤ n' := hg.bound p hp
    unfold fieldEnd at hfe
    exact (Nat.le_div_iff_mul_le hwpos).mpr (by omega)

/-- C9 witness: the Scenario A layout over a 19-byte buffer (19 is not a
multiple of 8 or 4). -/
theorem c9_views_full_remainder_witness :
    (16 ≤ (List.replicate 19 (0 : Nat)).length ∧
      jsMisaligned 0 messageTemplate.alignment = false) ∧
    (∃ views,
      createViews ⟨0, List.replicate 19 0⟩ messageTemplate = .ok views ∧
      (∀ tv ∈ views,
        tv.2 = (List.replicate 19 (0 : Nat)).length / bytesPerElement tv.1 ∧
        tv.2 * bytesPerElement tv.1 ≤ (List.replicate 19 (0 : Nat)).length ∧
        (List.replicate 19 (0 : Nat)).length < (tv.2 + 1) * bytesPerElement tv.1) ∧
      (∀ p ∈ messageTemplate.schema,
        p.2.index + p.2.count
          ≤ (List.replicate 19 (0 : Nat)).length / bytesPerElement p.2.type)) :=
  ⟨⟨by decide, by decide⟩,
    c9_views_full_remainder messageSchema messageTemplate 16
      ⟨0, List.replicate 19 0⟩ rfl rfl (by decide) (by decide)⟩

end Structalize
